import Mathlib

set_option maxHeartbeats 1000000

/-!
Shallow embedding of the Condor forecasting pipeline: the functions of
data_preprocessing.py, stationarity_and_transformation.py,
statistical_functions.py, time_series_smoothing.py and
arimax_optimization_and_forecasting.py that the verified properties
talk about.

A pandas Series is modelled as an explicit integer-label index paired
with a list of optional rational values, where none models NaN.
Library numeric kernels that the repository merely calls (the augmented
Dickey-Fuller test of statsmodels, the Nelder-Mead minimizer of scipy,
the lowess kernel of statsmodels, log1p, expm1, sqrt and the normal
quantile function) are taken as explicit function parameters of the
embedded definitions; everything the repository itself computes around
those kernels is translated directly from the source.
-/

namespace Condor

/-- Error outcomes of the Python ValueError sites in the translated code. -/
inductive PyErr where
  | windowOutOfBounds
  | nanOrZero
  | negativeValues
  | missingSeasonality
  | trendWithoutExog
  | invalidCriterion
  deriving DecidableEq, Repr

/-- A pandas Series: an integer label index together with optional values
(none models NaN). -/
structure PSeries where
  idx : List ℤ
  vals : List (Option ℚ)
  deriving DecidableEq, Repr

/-- A clean (NaN-free) labelled series, as produced by boolean filtering. -/
abbrev CSeries := List (ℤ × ℚ)

/-- Value-level first difference followed by dropna, as performed by
pandas Series.diff().dropna() inside make_stationary: each surviving
entry is the current value minus the previous one. -/
def diffVals (xs : List ℚ) : List ℚ :=
  List.zipWith (fun a b => b - a) xs xs.tail

/-- Labelled first difference followed by dropna: the label of each
surviving entry is the label of the later of the two values, exactly as
pandas diff keeps the index and dropna removes the leading NaN row. -/
def diffDrop (s : CSeries) : CSeries :=
  List.zipWith (fun a b => (b.1, b.2 - a.2)) s s.tail

/-- Iterated labelled differencing, peeling one difference at a time. -/
def iterDiffDrop : ℕ → CSeries → CSeries
  | 0, s => s
  | n + 1, s => iterDiffDrop n (diffDrop s)

/-- Loop of make_stationary (stationarity_and_transformation.py): test the
current series, and while the test fails and differencing budget remains,
difference once more.  Returns the final series, the number of differences
applied, and whether the test finally accepted. -/
def make_stationary_aux (adf : List ℚ → Bool) : ℕ → CSeries → ℕ → CSeries × ℕ × Bool
  | r, cur, i =>
    if adf (cur.map Prod.snd) then (cur, i, true)
    else
      match r with
      | 0 => (cur, i, false)
      | Nat.succ rr => make_stationary_aux adf rr (diffDrop cur) (i + 1)

/-- Translation of make_stationary: difference up to max_diff times until
the ADF test (passed in as the abstract kernel adf, applied to the value
column exactly as adf_test calls adfuller) accepts; if it never accepts,
return the original series paired with order 0. -/
def make_stationary (adf : List ℚ → Bool) (y_series : CSeries) (max_diff : ℕ) :
    CSeries × ℕ :=
  let r := make_stationary_aux adf max_diff y_series 0
  if r.2.2 then (r.1, r.2.1) else (y_series, 0)

/-- Cumulative sums starting from a running total, mirroring np.cumsum. -/
def cumsumFrom (acc : ℚ) : List ℚ → List ℚ
  | [] => []
  | x :: xs => (acc + x) :: cumsumFrom (acc + x) xs

/-- Translation of np.cumsum as used to reverse differencing in
interpolate_stock_prices. -/
def cumsum (xs : List ℚ) : List ℚ := cumsumFrom 0 xs

/-- Apply np.cumsum num_diff times, as the reverse-differencing loop does. -/
def cumsumN : ℕ → List ℚ → List ℚ
  | 0, xs => xs
  | n + 1, xs => cumsumN n (cumsum xs)

/-- Iterated value-level differencing. -/
def iterDiffVals : ℕ → List ℚ → List ℚ
  | 0, xs => xs
  | n + 1, xs => iterDiffVals n (diffVals xs)

/-- Leading values recorded before each of the first n differencing passes:
the seeds needed to reverse the differencing. -/
def seedList : ℕ → List ℚ → List ℚ
  | 0, _ => []
  | n + 1, xs => xs.headI :: seedList n (diffVals xs)

/-- Reverse n differencing passes: prepend each recorded seed and take
cumulative sums, innermost difference first. -/
def reconstructN : List ℚ → List ℚ → List ℚ
  | [], ds => ds
  | a :: rest, ds => cumsum (a :: reconstructN rest ds)

/-- Strip NaNs and zeros from a value column, keeping order, exactly as
estimate_normal_params filters with notna and a nonzero test. -/
def cleanVals (vs : List (Option ℚ)) : List ℚ :=
  vs.filterMap (fun o =>
    match o with
    | none => none
    | some v => if v = 0 then none else some v)

/-- Translation of estimate_normal_params (statistical_functions.py): strip
NaNs and zeros, then hand the cleaned values to the abstract MLE kernel,
which stands for initializing at the sample mean and standard deviation of
those cleaned values and running the Nelder-Mead minimization of the
negative log-likelihood. -/
def estimate_normal_params (mle : List ℚ → ℚ × ℚ) (y_series : List (Option ℚ)) :
    ℚ × ℚ :=
  mle (cleanVals y_series)

/- Basic facts about the loop of make_stationary. -/

theorem make_stationary_aux_order_le (adf : List ℚ → Bool) :
    ∀ (r : ℕ) (cur : CSeries) (i : ℕ),
      (make_stationary_aux adf r cur i).2.1 ≤ i + r := by
  intro r
  induction r with
  | zero =>
    intro cur i
    unfold make_stationary_aux
    by_cases h : adf (cur.map Prod.snd) <;> simp [h]
  | succ rr ih =>
    intro cur i
    unfold make_stationary_aux
    by_cases h : adf (cur.map Prod.snd)
    · simp only [h, if_true]
      omega
    · simp only [h, if_false, Bool.false_eq_true]
      have := ih (diffDrop cur) (i + 1)
      omega

theorem make_stationary_aux_all_false (adf : List ℚ → Bool) :
    ∀ (r : ℕ) (cur : CSeries) (i : ℕ),
      (∀ k, k ≤ r → adf ((iterDiffDrop k cur).map Prod.snd) = false) →
      (make_stationary_aux adf r cur i).2.2 = false := by
  intro r
  induction r with
  | zero =>
    intro cur i h
    have h0 := h 0 (Nat.le_refl 0)
    simp [iterDiffDrop] at h0
    unfold make_stationary_aux
    simp [h0]
  | succ rr ih =>
    intro cur i h
    have h0 := h 0 (Nat.zero_le _)
    simp [iterDiffDrop] at h0
    unfold make_stationary_aux
    simp [h0]
    apply ih
    intro k hk
    have := h (k + 1) (by omega)
    simpa [iterDiffDrop] using this

theorem make_stationary_aux_accept (adf : List ℚ → Bool)
    (r : ℕ) (cur : CSeries) (i : ℕ) (h : adf (cur.map Prod.snd) = true) :
    make_stationary_aux adf r cur i = (cur, i, true) := by
  unfold make_stationary_aux
  simp [h]

/-- C3 make_stationary returns a differencing order in [0, max_diff]; if the
stationarity test never accepts within max_diff differencing attempts it
returns the original, undifferenced series paired with order 0; and if the
input is already stationary it returns the input undifferenced with order 0.
The ADF test is abstracted as the boolean kernel adf applied to the value
column, exactly as adf_test wraps adfuller. -/
theorem C3_make_stationary_order_policy (adf : List ℚ → Bool)
    (y_series : CSeries) (max_diff : ℕ) :
    (make_stationary adf y_series max_diff).2 ≤ max_diff ∧
    ((∀ k, k ≤ max_diff →
        adf ((iterDiffDrop k y_series).map Prod.snd) = false) →
      make_stationary adf y_series max_diff = (y_series, 0)) ∧
    (adf (y_series.map Prod.snd) = true →
      make_stationary adf y_series max_diff = (y_series, 0)) := by
  refine ⟨?_, ?_, ?_⟩
  · unfold make_stationary
    by_cases h : (make_stationary_aux adf max_diff y_series 0).2.2
    · simp only [h, if_true]
      have := make_stationary_aux_order_le adf max_diff y_series 0
      omega
    · simp [h]
  · intro hall
    unfold make_stationary
    have := make_stationary_aux_all_false adf max_diff y_series 0 hall
    simp [this]
  · intro hacc
    unfold make_stationary
    rw [make_stationary_aux_accept adf max_diff y_series 0 hacc]
    simp

/-- C3 witness: with a kernel that always rejects, the series [(0,3),(1,5)]
is returned unchanged with order 0, and the order is within [0,2]. -/
theorem C3_witness :
    make_stationary (fun _ => false) [(0, 3), (1, 5)] 2 = ([(0, 3), (1, 5)], 0) ∧
    (make_stationary (fun _ => false) [(0, 3), (1, 5)] 2).2 ≤ 2 := by
  have h := C3_make_stationary_order_policy (fun _ => false) [(0, 3), (1, 5)] 2
  exact ⟨h.2.1 (fun k _ => rfl), h.1⟩

/- Round trip between differencing and seeded cumulative summation. -/

theorem cumsumFrom_diffVals (xs : List ℚ) :
    ∀ a : ℚ, cumsumFrom a (List.zipWith (fun u v => v - u) (a :: xs) xs) = xs := by
  induction xs with
  | nil => intro a; rfl
  | cons b tl ih =>
    intro a
    simp only [List.zipWith, cumsumFrom]
    rw [add_sub_cancel]
    exact congrArg (b :: ·) (ih b)

theorem cumsum_head_diffVals (xs : List ℚ) (h : xs ≠ []) :
    cumsum (xs.headI :: diffVals xs) = xs := by
  cases xs with
  | nil => exact absurd rfl h
  | cons a tl =>
    unfold cumsum diffVals
    simp only [List.headI, cumsumFrom, List.tail_cons]
    rw [zero_add]
    exact congrArg (a :: ·) (cumsumFrom_diffVals tl a)

theorem diffVals_length (xs : List ℚ) : (diffVals xs).length = xs.length - 1 := by
  unfold diffVals
  rw [List.length_zipWith, List.length_tail]
  omega

/-- C8 differencing a series n times (first differences, leading entry
dropped, as in make_stationary) and then cumulatively summing n times, each
pass seeded with the leading value the corresponding pass started from,
reconstructs the original series; over exact rationals the reconstruction is
exact, hence within any floating-point tolerance. -/
theorem C8_difference_cumsum_round_trip :
    ∀ (n : ℕ) (xs : List ℚ), n ≤ xs.length →
      reconstructN (seedList n xs) (iterDiffVals n xs) = xs := by
  intro n
  induction n with
  | zero => intro xs _; rfl
  | succ m ih =>
    intro xs hlen
    have hne : xs ≠ [] := by
      intro hempty
      rw [hempty] at hlen
      simp at hlen
    have hrec : iterDiffVals (m + 1) xs = iterDiffVals m (diffVals xs) := rfl
    simp only [seedList, reconstructN, hrec]
    rw [ih (diffVals xs) (by rw [diffVals_length]; omega)]
    exact cumsum_head_diffVals xs hne

/-- C8 witness: differencing [3,5,9] twice and reconstructing with the
recorded seeds returns [3,5,9] exactly. -/
theorem C8_witness :
    reconstructN (seedList 2 [3, 5, 9]) (iterDiffVals 2 [3, 5, 9]) = [3, 5, 9] :=
  C8_difference_cumsum_round_trip 2 [3, 5, 9] (by decide)

/- Insensitivity of the MLE parameter estimator to NaN and zero entries. -/

theorem cleanVals_map_some (vs : List ℚ) :
    cleanVals (vs.map some) = vs.filter (fun v => !(v = 0 : Bool)) := by
  induction vs with
  | nil => rfl
  | cons a tl ih =>
    by_cases h : a = 0 <;> simp [cleanVals, List.filter, h] at ih ⊢ <;> exact ih

theorem cleanVals_idempotent (vs : List (Option ℚ)) :
    cleanVals ((cleanVals vs).map some) = cleanVals vs := by
  induction vs with
  | nil => rfl
  | cons o tl ih =>
    cases o with
    | none => simpa [cleanVals] using ih
    | some v =>
      by_cases h : v = 0
      · simpa [cleanVals, h] using ih
      · simp only [cleanVals, List.filterMap] at ih ⊢
        simp [h] at ih ⊢
        exact ih

/-- C10 estimate_normal_params is insensitive to missing and zero entries:
its result on any series equals its result on the series with all NaN and
zero entries removed, because the routine strips NaNs and zeros itself
before handing the values to the likelihood optimization (abstracted as the
kernel mle, which covers the sample mean and standard deviation
initialization and the Nelder-Mead search, both of which only ever see the
stripped values).  The embedded function is pure, matching the fact that the
routine works on a copy and never modifies the caller series. -/
theorem C10_estimate_normal_params_strip_invariant (mle : List ℚ → ℚ × ℚ)
    (y_series : List (Option ℚ)) :
    estimate_normal_params mle y_series =
      estimate_normal_params mle ((cleanVals y_series).map some) := by
  unfold estimate_normal_params
  rw [cleanVals_idempotent]

/- Model-order search engine (arimax_optimization_and_forecasting.py). -/

/-- Python range with an inclusive upper bound, range(n + 1). -/
def rangeIncl (n : ℕ) : List ℕ := List.range (n + 1)

/-- Nonseasonal candidate orders: itertools.product of p over [0, max_p],
d over [0, max_d] (or the single fixed d when one is supplied), and q over
[0, max_q], last coordinate varying fastest. -/
def non_seasonal_params (max_p max_d max_q : ℕ) (d : Option ℕ) :
    List (ℕ × ℕ × ℕ) :=
  let dChoices := match d with
    | none => rangeIncl max_d
    | some dv => [dv]
  (rangeIncl max_p).flatMap (fun p =>
    dChoices.flatMap (fun dv =>
      (rangeIncl max_q).map (fun q => (p, dv, q))))

/-- Seasonal candidate tuples: itertools.product of P, D, Q ranges with the
fixed periodicity s. -/
def seasonal_params_list (max_P max_D max_Q s : ℕ) : List (ℕ × ℕ × ℕ × ℕ) :=
  (rangeIncl max_P).flatMap (fun P =>
    (rangeIncl max_D).flatMap (fun D =>
      (rangeIncl max_Q).map (fun Q => (P, D, Q, s))))

/-- Return shape of generate_auto_arimax_test_params: a list of 3-tuples or,
with seasonal search, a list of 7-tuples. -/
inductive ArimaxParamsList where
  | nonSeasonal : List (ℕ × ℕ × ℕ) → ArimaxParamsList
  | seasonal : List (ℕ × ℕ × ℕ × ℕ × ℕ × ℕ × ℕ) → ArimaxParamsList
  deriving Repr

/-- Translation of generate_auto_arimax_test_params: fatal error when
seasonal generation is requested without a periodicity, otherwise the
Cartesian product of the candidate ranges, crossed with the seasonal tuples
when seasonal generation is on. -/
def generate_auto_arimax_test_params (max_p max_d max_q : ℕ) (d : Option ℕ)
    (generate_seasonal_flag : Bool) (max_P max_D max_Q : ℕ)
    (seasonality_trend : Option ℕ) : Except PyErr ArimaxParamsList :=
  if generate_seasonal_flag = true ∧ seasonality_trend = none then
    .error PyErr.missingSeasonality
  else
    let nsp := non_seasonal_params max_p max_d max_q d
    if generate_seasonal_flag then
      let s := seasonality_trend.getD 0
      let sp := seasonal_params_list max_P max_D max_Q s
      .ok (ArimaxParamsList.seasonal
        (nsp.flatMap (fun t =>
          sp.map (fun u => (t.1, t.2.1, t.2.2, u.1, u.2.1, u.2.2.1, u.2.2.2)))))
    else
      .ok (ArimaxParamsList.nonSeasonal nsp)

/-- C5 generate_auto_arimax_test_params produces the Cartesian product of
p in [0, max_p], d in [0, max_d] (or the single fixed d when specified) and
q in [0, max_q]; the call with max_p = 1, max_d = 0, max_q = 1 yields exactly
the four tuples (0,0,0), (0,0,1), (1,0,0), (1,0,1) in that order; and
requesting seasonal parameter generation without a periodicity is a fatal
error. -/
theorem C5_generate_params_cartesian_product :
    (∀ max_p max_d max_q p dv q,
      ((p, dv, q) ∈ non_seasonal_params max_p max_d max_q none ↔
        (p ≤ max_p ∧ dv ≤ max_d ∧ q ≤ max_q))) ∧
    (∀ max_p max_d max_q dfix p dv q,
      ((p, dv, q) ∈ non_seasonal_params max_p max_d max_q (some dfix) ↔
        (p ≤ max_p ∧ dv = dfix ∧ q ≤ max_q))) ∧
    generate_auto_arimax_test_params 1 0 1 none false 2 1 2 none
      = Except.ok (ArimaxParamsList.nonSeasonal
          [(0, 0, 0), (0, 0, 1), (1, 0, 0), (1, 0, 1)]) ∧
    (∀ max_p max_d max_q d max_P max_D max_Q,
      generate_auto_arimax_test_params max_p max_d max_q d true
          max_P max_D max_Q none
        = Except.error PyErr.missingSeasonality) := by
  refine ⟨?_, ?_, by rfl, ?_⟩
  · intro mp md mq p dv q
    simp only [non_seasonal_params, rangeIncl, List.mem_flatMap, List.mem_map,
      List.mem_range, Nat.lt_succ_iff, Prod.mk.injEq]
    constructor
    · rintro ⟨a, ha, b, hb, c, hc, rfl, rfl, rfl⟩
      exact ⟨ha, hb, hc⟩
    · rintro ⟨h1, h2, h3⟩
      exact ⟨p, h1, dv, h2, q, h3, rfl, rfl, rfl⟩
  · intro mp md mq dfix p dv q
    simp only [non_seasonal_params, rangeIncl, List.mem_flatMap, List.mem_map,
      List.mem_range, Nat.lt_succ_iff, List.mem_singleton, Prod.mk.injEq]
    constructor
    · rintro ⟨a, ha, b, rfl, c, hc, rfl, rfl, rfl⟩
      exact ⟨ha, rfl, hc⟩
    · rintro ⟨h1, rfl, h3⟩
      exact ⟨p, h1, dv, rfl, q, h3, rfl, rfl, rfl⟩
  · intro mp md mq d mP mD mQ
    unfold generate_auto_arimax_test_params
    simp

/-- Outcome of fitting one candidate order: the fitted information criteria,
or the exception the fit raised. -/
structure FitResult where
  aic : ℚ
  bic : ℚ
  deriving DecidableEq, Repr

/-- Fitness value of a candidate order: a finite criterion value, or np.inf
when the fit failed. -/
inductive Score where
  | infeasible
  | score_value : ℚ → Score
  deriving DecidableEq, Repr

/-- Penalty criterion configuration: the two recognized names, or any other
string. -/
inductive Criterion where
  | AIC
  | BIC
  | other
  deriving DecidableEq, Repr

/-- Floor of a rational, written as Euclidean division of the numerator by
the positive denominator so that it evaluates in the kernel. -/
def ratFloor (x : ℚ) : ℤ := Int.ediv x.num x.den

/-- Round half to even, the tie-breaking rule of the Python round builtin. -/
def roundHalfEven (x : ℚ) : ℤ :=
  if x - ratFloor x < 1 / 2 then ratFloor x
  else if 1 / 2 < x - ratFloor x then ratFloor x + 1
  else if ratFloor x % 2 = 0 then ratFloor x else ratFloor x + 1

/-- Python round(x, n): round to n decimal places with half-even ties. -/
def pyRound (x : ℚ) (n : ℕ) : ℚ :=
  (roundHalfEven (x * 10 ^ n) : ℚ) / 10 ^ n

/-- Decimal exponent of a natural number below 10 ^ 19: the number of
powers of ten that fit into m, found by bounded search so that it reduces
in the kernel. -/
def decExp (m : ℕ) : ℕ :=
  ((List.range 19).filter (fun k => 10 ^ (k + 1) ≤ m)).length

/-- Modelled from the claim wording only, for comparison: rounding a
rational of magnitude at least one to five significant digits, where the
decimal exponent is taken from the integer part.  The source never
computes this quantity. -/
def roundSig5 (x : ℚ) : ℚ :=
  let e := decExp (Int.toNat (ratFloor x))
  if 4 ≤ e then (roundHalfEven (x / 10 ^ (e - 4)) : ℚ) * 10 ^ (e - 4)
  else (roundHalfEven (x * 10 ^ (4 - e)) : ℚ) / 10 ^ (4 - e)

theorem ratFloor_eq_floor (x : ℚ) : ratFloor x = Int.floor x := by
  rw [Rat.floor_def]
  rfl

theorem roundHalfEven_eq_floor (x : ℚ) (h : x - Int.floor x < 1 / 2) :
    roundHalfEven x = Int.floor x := by
  unfold roundHalfEven
  rw [ratFloor_eq_floor, if_pos h]

theorem roundHalfEven_eq_floor_add_one (x : ℚ) (h : 1 / 2 < x - Int.floor x) :
    roundHalfEven x = Int.floor x + 1 := by
  unfold roundHalfEven
  have h2 : ¬(x - ((Int.floor x : ℤ) : ℚ) < 1 / 2) := by linarith
  rw [ratFloor_eq_floor, if_neg h2, if_pos h]

theorem roundHalfEven_intCast (z : ℤ) : roundHalfEven ((z : ℚ)) = z := by
  rw [roundHalfEven_eq_floor ((z : ℚ)) (by rw [Int.floor_intCast]; norm_num),
    Int.floor_intCast]

/-- Translation of check_generated_arimax_params: fatal error when trend
parameters come without exogenous regressors; otherwise the outcome of the
ARIMA fit (abstracted as fit_outcome, the result of the try block around
arimax_model.fit) is mapped to the infeasible sentinel on any error, and on
success to the rounded BIC or AIC according to the configured criterion,
with an unrecognized criterion a fatal error. -/
def check_generated_arimax_params (fit_outcome : Except Unit FitResult)
    (exog_present trend_present : Bool) (penalty_criteria : Criterion) :
    Except PyErr Score :=
  if exog_present = false ∧ trend_present = true then
    .error PyErr.trendWithoutExog
  else
    match fit_outcome with
    | .error _ => .ok Score.infeasible
    | .ok m =>
      match penalty_criteria with
      | Criterion.BIC => .ok (Score.score_value (pyRound m.bic 5))
      | Criterion.AIC => .ok (Score.score_value (pyRound m.aic 5))
      | Criterion.other => .error PyErr.invalidCriterion

theorem floor_1234567_div_10 : Int.floor ((1234567 : ℚ) / 10) = 123456 := by
  have h : ((1234567 : ℚ) / 10) = (((1234567 : ℤ) : ℚ) / ((10 : ℕ) : ℚ)) := by
    norm_num
  rw [h, Rat.floor_intCast_div_natCast]
  decide

theorem floor_1234567_div_100 : Int.floor ((1234567 : ℚ) / 100) = 12345 := by
  have h : ((1234567 : ℚ) / 100) = (((1234567 : ℤ) : ℚ) / ((100 : ℕ) : ℚ)) := by
    norm_num
  rw [h, Rat.floor_intCast_div_natCast]
  decide

theorem pyRound_counterexample_value : pyRound (1234567 / 10) 5 = 1234567 / 10 := by
  unfold pyRound
  have harg : ((1234567 : ℚ) / 10) * 10 ^ 5 = ((12345670000 : ℤ) : ℚ) := by
    norm_num
  rw [harg, roundHalfEven_intCast]
  norm_num

theorem roundSig5_counterexample_value : roundSig5 (1234567 / 10) = 123460 := by
  unfold roundSig5
  rw [ratFloor_eq_floor, floor_1234567_div_10]
  have he : decExp (Int.toNat 123456) = 5 := by decide
  rw [he]
  norm_num
  rw [roundHalfEven_eq_floor_add_one ((1234567 : ℚ) / 100)
    (by rw [floor_1234567_div_100]; norm_num), floor_1234567_div_100]
  norm_num

/-- C4 counterexample: on a successful fit with AIC 123456.7 the evaluator
returns round(aic, 5) = 123456.7, the value rounded to five decimal places,
which differs from 123460, the same value rounded to five significant
digits as the claim states it. -/
theorem C4_counterexample :
    check_generated_arimax_params
        (Except.ok ⟨1234567 / 10, 0⟩) true false Criterion.AIC
      = Except.ok (Score.score_value (1234567 / 10)) ∧
    roundSig5 (1234567 / 10) = 123460 ∧
    (1234567 / 10 : ℚ) ≠ 123460 := by
  refine ⟨?_, roundSig5_counterexample_value, by norm_num⟩
  show Except.ok (Score.score_value (pyRound (1234567 / 10) 5))
    = Except.ok (Score.score_value (1234567 / 10))
  rw [pyRound_counterexample_value]

/-- C4 amended: for every candidate order the fitness evaluator returns the
infeasible sentinel whenever the ARIMA fit raises any error, without
propagating the exception, and on a successful fit returns the AIC or BIC
per the configured penalty criterion rounded to five decimal places with
half-even ties (Python round(value, 5)), not to five significant digits. -/
theorem C4_check_params_sentinel_and_rounding
    (fit_outcome : Except Unit FitResult)
    (exog_present trend_present : Bool) (crit : Criterion)
    (hvalid : ¬(exog_present = false ∧ trend_present = true)) :
    (∀ e, fit_outcome = Except.error e →
      check_generated_arimax_params fit_outcome exog_present trend_present crit
        = Except.ok Score.infeasible) ∧
    (∀ m, fit_outcome = Except.ok m →
      (crit = Criterion.AIC →
        check_generated_arimax_params fit_outcome exog_present trend_present crit
          = Except.ok (Score.score_value (pyRound m.aic 5))) ∧
      (crit = Criterion.BIC →
        check_generated_arimax_params fit_outcome exog_present trend_present crit
          = Except.ok (Score.score_value (pyRound m.bic 5)))) := by
  constructor
  · intro e he
    subst he
    unfold check_generated_arimax_params
    simp [hvalid]
  · intro m hm
    subst hm
    constructor
    · intro hc
      subst hc
      unfold check_generated_arimax_params
      simp [hvalid]
    · intro hc
      subst hc
      unfold check_generated_arimax_params
      simp [hvalid]

/-- C4 witness: a failed fit is scored as the infeasible sentinel. -/
theorem C4_witness :
    check_generated_arimax_params (Except.error ()) true false Criterion.AIC
      = Except.ok Score.infeasible := by
  have h := C4_check_params_sentinel_and_rounding (Except.error ()) true false
    Criterion.AIC (by simp)
  exact h.1 () rfl

/- Parallel dispatch, accumulation and selection of auto_arimax_optimizer. -/

abbrev ArimaOrder := ℕ × ℕ × ℕ

/-- Worker body of optimize_arimax_params: score every candidate of the
chunk in chunk order.  The scoring function abstracts
check_generated_arimax_params applied at the fixed series and
configuration; it is deterministic per candidate. -/
def optimize_arimax_params (scoreOf : ArimaOrder → ℚ)
    (params_chunk : List ArimaOrder) : List ℚ :=
  params_chunk.map scoreOf

/-- Chunk sizes of np.array_split into n parts: the first len mod n chunks
receive one extra element. -/
def arraySplitSizes (len n : ℕ) : List ℕ :=
  (List.range n).map (fun i => if i < len % n then len / n + 1 else len / n)

/-- Cut a list into consecutive chunks of the given sizes. -/
def takeChunks : List ℕ → List ArimaOrder → List (List ArimaOrder)
  | [], _ => []
  | s :: rest, xs => xs.take s :: takeChunks rest (xs.drop s)

/-- Translation of np.array_split as used to partition the candidate list
among the workers. -/
def array_split (xs : List ArimaOrder) (n : ℕ) : List (List ArimaOrder) :=
  takeChunks (arraySplitSizes xs.length n) xs

/-- Accumulation and selection of auto_arimax_optimizer: the per-chunk score
lists arrive from the unordered pool in completion order and are
concatenated in that order into test_results; the minimum score is then
located by its position in that completion-ordered stream, and that
position indexes the candidate list, which is in generation order. -/
def collect_and_select (arimax_test_params : List ArimaOrder)
    (completed_chunk_results : List (List ℚ)) : Option ArimaOrder :=
  let test_results := completed_chunk_results.flatten
  match test_results.min? with
  | none => none
  | some m => arimax_test_params.get? (List.indexOf m test_results)

/-- Scores for the two demonstration candidates: candidate (0,0,1) has the
strictly smaller score 3, candidate (0,0,0) scores 5. -/
def demoScore : ArimaOrder → ℚ := fun o => if o = (0, 0, 1) then 3 else 5

/-- C2 the selected order is not invariant to worker completion order: with
candidates (0,0,0) and (0,0,1) split into one-element chunks and scores 5
and 3, delivery in generation order selects (0,0,1), the true optimum, but
delivery with the second chunk first selects (0,0,0), because the minimum
is located by its position in the completion-ordered stream rather than
re-associated with its originating candidate. -/
theorem C2_selection_depends_on_completion_order :
    array_split [(0, 0, 0), (0, 0, 1)] 2 = [[(0, 0, 0)], [(0, 0, 1)]] ∧
    collect_and_select [(0, 0, 0), (0, 0, 1)]
      [optimize_arimax_params demoScore [(0, 0, 0)],
       optimize_arimax_params demoScore [(0, 0, 1)]] = some (0, 0, 1) ∧
    collect_and_select [(0, 0, 0), (0, 0, 1)]
      [optimize_arimax_params demoScore [(0, 0, 1)],
       optimize_arimax_params demoScore [(0, 0, 0)]] = some (0, 0, 0) := by
  refine ⟨by decide, by decide, by decide⟩

/- Forecast prediction interval (arimax_optimization_and_forecasting.py). -/

/-- Standard deviation of a list as np.std computes it: the square root of
the mean squared deviation from the mean, with the square root supplied as
the abstract kernel sqrtK. -/
def npStd (sqrtK : ℚ → ℚ) (xs : List ℚ) : ℚ :=
  sqrtK ((xs.map (fun x => (x - xs.sum / (xs.length : ℚ)) ^ 2)).sum
    / (xs.length : ℚ))

/-- Python slice y[:-m]: empty when m = 0, otherwise all but the last m
entries. -/
def sliceDropLast (ys : List ℚ) (m : ℕ) : List ℚ :=
  if m = 0 then [] else ys.take (ys.length - m)

/-- Translation of calculate_forecast_prediction_interval: residuals are
the elementwise difference of the slices y[:-len(forecast)] and
y[len(forecast):]; the margin for each forecast step multiplies
z = ppf(1 - alpha / 2) by the residual standard deviation and by the
square root of the step index taken from arange(1, len(forecast) + 1);
the two bounds subtract and add the margin to the forecast.  sqrtK
abstracts np.sqrt and ppf abstracts the scipy normal quantile. -/
def calculate_forecast_prediction_interval (sqrtK ppf : ℚ → ℚ) (alpha : ℚ)
    (y_series y_forecast : List ℚ) : List ℚ × List ℚ :=
  let residuals := List.zipWith (fun a b => a - b)
    (sliceDropLast y_series y_forecast.length) (y_series.drop y_forecast.length)
  let std_residuals := npStd sqrtK residuals
  let z := ppf (1 - alpha / 2)
  let sqrt_n := (List.range y_forecast.length).map (fun k => sqrtK ((k : ℚ) + 1))
  let margin := sqrt_n.map (fun v => z * std_residuals * v)
  (List.zipWith (fun f m => f - m) y_forecast margin,
   List.zipWith (fun f m => f + m) y_forecast margin)

/-- Restatement of the claim wording for the forecast interval, written to
be compared with the translation above: residuals are the elementwise
difference between slice y[:-len(forecast)] and slice y[len(forecast):],
and for the step-ahead index k = 1..len(forecast) the bounds are the
forecast value minus and plus z times the residual standard deviation
times sqrt k. -/
def forecast_interval_claim (sqrtK ppf : ℚ → ℚ) (alpha : ℚ)
    (y_series y_forecast : List ℚ) : List ℚ × List ℚ :=
  let residuals := List.zipWith (fun a b => a - b)
    (sliceDropLast y_series y_forecast.length) (y_series.drop y_forecast.length)
  let std := npStd sqrtK residuals
  let z := ppf (1 - alpha / 2)
  (List.zipWith (fun f k => f - z * std * sqrtK ((k : ℚ) + 1))
     y_forecast (List.range y_forecast.length),
   List.zipWith (fun f k => f + z * std * sqrtK ((k : ℚ) + 1))
     y_forecast (List.range y_forecast.length))

/-- C6 calculate_forecast_prediction_interval computes residuals as the
elementwise difference between the slices y[:-len(forecast)] and
y[len(forecast):] of the historical series, takes their standard
deviation, and returns the symmetric bounds forecast plus and minus
z * std * sqrt k for the step-ahead index k = 1..len(forecast), with
z the normal quantile at the given alpha. -/
theorem C6_forecast_interval_shape (sqrtK ppf : ℚ → ℚ) (alpha : ℚ)
    (y_series y_forecast : List ℚ) :
    calculate_forecast_prediction_interval sqrtK ppf alpha y_series y_forecast
      = forecast_interval_claim sqrtK ppf alpha y_series y_forecast := by
  unfold calculate_forecast_prediction_interval forecast_interval_claim
  simp only [List.map_map, List.zipWith_map_right, Function.comp]

/- Local regression smoother (time_series_smoothing.py). -/

/-- Default pandas RangeIndex over n rows: integer labels 0 .. n-1, as
pd.Series attaches to a freshly constructed series. -/
def rangeIdx (n : ℕ) : List ℤ := (List.range n).map Int.ofNat

/-- Translation of smooth_lowess: after the window bound check and the
NaN/zero check, log1p-transform the values, run the abstract lowess kernel
lw at fraction smoothing_window / length with the configured number of
reweighting iterations, inverse-transform with expm1, and wrap the result
in a fresh series carrying the default range index, as pd.Series does. -/
def smooth_lowess (lw : List ℚ → ℚ → ℕ → List ℚ) (log1p expm1 : ℚ → ℚ)
    (y_series : PSeries) (smoothing_window : ℕ) (smoothing_iterations : ℕ) :
    Except PyErr PSeries :=
  if smoothing_window < 3 ∨ y_series.vals.length < smoothing_window then
    .error PyErr.windowOutOfBounds
  else if y_series.vals.any (fun o => decide (o = none ∨ o = some 0)) then
    .error PyErr.nanOrZero
  else
    let y_smooth :=
      (lw ((y_series.vals.map (fun o => o.getD 0)).map log1p)
        ((smoothing_window : ℚ) / (y_series.vals.length : ℚ))
        smoothing_iterations).map expm1
    .ok ⟨rangeIdx y_smooth.length, y_smooth.map some⟩

/-- Identity stand-in for a unary numeric kernel, used for concrete runs. -/
def idKernelQ : ℚ → ℚ := fun x => x

/-- Stand-in lowess kernel returning its input values, used for concrete
runs; like the statsmodels kernel with exog = arange it is
length-preserving. -/
def idLowess : List ℚ → ℚ → ℕ → List ℚ := fun xs _ _ => xs

/-- Shared unfolding of the success path of smooth_lowess: when the window
bounds hold and the series is NaN/zero free, the smoother returns the
transformed values under a fresh range index. -/
theorem smooth_lowess_ok_of_valid (lw : List ℚ → ℚ → ℕ → List ℚ)
    (log1p expm1 : ℚ → ℚ) (y_series : PSeries) (w it : ℕ)
    (hw3 : 3 ≤ w) (hwlen : w ≤ y_series.vals.length)
    (hclean : ∀ o ∈ y_series.vals, o ≠ none ∧ o ≠ some 0) :
    smooth_lowess lw log1p expm1 y_series w it
      = Except.ok ⟨rangeIdx (((lw ((y_series.vals.map (fun o => o.getD 0)).map log1p)
            ((w : ℚ) / (y_series.vals.length : ℚ)) it).map expm1).length),
          ((lw ((y_series.vals.map (fun o => o.getD 0)).map log1p)
              ((w : ℚ) / (y_series.vals.length : ℚ)) it).map expm1).map some⟩ := by
  have hcond : ¬(w < 3 ∨ y_series.vals.length < w) := by omega
  have hany : y_series.vals.any (fun o => decide (o = none ∨ o = some 0)) = false := by
    rw [List.any_eq_false]
    intro o ho
    have h2 := hclean o ho
    simpa using h2
  unfold smooth_lowess
  rw [if_neg hcond, hany]
  simp

/-- C7 amended: for every valid input (no NaNs or zeros, window between 3
and the series length) and any length-preserving lowess kernel,
smooth_lowess returns a series of the same length computed by
log(1+x)-transforming the input, running the kernel at fraction
window / length for the configured number of passes and
inverse-transforming with exp(x)-1; the returned index is the fresh
default range 0..n-1, which coincides with the input index exactly when
the input carries that default index. -/
theorem C7_smooth_lowess_structure (lw : List ℚ → ℚ → ℕ → List ℚ)
    (log1p expm1 : ℚ → ℚ) (y_series : PSeries) (w it : ℕ)
    (hw3 : 3 ≤ w) (hwlen : w ≤ y_series.vals.length)
    (hclean : ∀ o ∈ y_series.vals, o ≠ none ∧ o ≠ some 0)
    (hlw : ∀ xs f k, (lw xs f k).length = xs.length) :
    smooth_lowess lw log1p expm1 y_series w it
      = Except.ok ⟨rangeIdx y_series.vals.length,
          ((lw ((y_series.vals.map (fun o => o.getD 0)).map log1p)
              ((w : ℚ) / (y_series.vals.length : ℚ)) it).map expm1).map some⟩ ∧
    (∀ out, smooth_lowess lw log1p expm1 y_series w it = Except.ok out →
      out.vals.length = y_series.vals.length ∧
      out.idx = rangeIdx y_series.vals.length) := by
  have hlen : ((lw ((y_series.vals.map (fun o => o.getD 0)).map log1p)
      ((w : ℚ) / (y_series.vals.length : ℚ)) it).map expm1).length
      = y_series.vals.length := by
    rw [List.length_map, hlw, List.length_map, List.length_map]
  have hmain := smooth_lowess_ok_of_valid lw log1p expm1 y_series w it
    hw3 hwlen hclean
  rw [hlen] at hmain
  refine ⟨hmain, ?_⟩
  intro out hout
  rw [hmain] at hout
  cases hout
  constructor
  · rw [List.length_map, hlen]
  · rfl

/-- C7 counterexample: with a nondefault input index [5,6,7] the smoother
returns the fresh range index [0,1,2], not the index of its input, so the
returned series does not carry the same index. -/
theorem C7_counterexample :
    smooth_lowess idLowess idKernelQ idKernelQ
        ⟨[5, 6, 7], [some 1, some 2, some 3]⟩ 3 1
      = Except.ok ⟨[0, 1, 2], [some 1, some 2, some 3]⟩ ∧
    ([0, 1, 2] : List ℤ) ≠ [5, 6, 7] := by
  exact ⟨rfl, by decide⟩

/-- C7 witness: on a default-indexed three-point series with window 3 the
smoother returns the structurally computed series. -/
theorem C7_witness :
    smooth_lowess idLowess idKernelQ idKernelQ
        ⟨[0, 1, 2], [some 1, some 2, some 3]⟩ 3 2
      = Except.ok ⟨[0, 1, 2], [some 1, some 2, some 3]⟩ := by
  have h := C7_smooth_lowess_structure idLowess idKernelQ idKernelQ
    ⟨[0, 1, 2], [some 1, some 2, some 3]⟩ 3 2 (by decide) (by decide)
    (by decide) (fun _ _ _ => rfl)
  rw [h.1]
  rfl

/-- C9 amended: the smoother raises its window error for every series when
the window is 2 (or anything below 3); it raises the window error whenever
the window exceeds the series length; it raises an error for every series
containing a NaN or a zero; and a window equal to the series length passes
validation and returns successfully provided the length is at least 3 and
the series is NaN/zero free (at length 2 the window-below-3 rule wins, so
window = length is then rejected). -/
theorem C9_smooth_lowess_validation (lw : List ℚ → ℚ → ℕ → List ℚ)
    (log1p expm1 : ℚ → ℚ) :
    (∀ y_series it, smooth_lowess lw log1p expm1 y_series 2 it
        = Except.error PyErr.windowOutOfBounds) ∧
    (∀ y_series w it, w < 3 → smooth_lowess lw log1p expm1 y_series w it
        = Except.error PyErr.windowOutOfBounds) ∧
    (∀ y_series w it, y_series.vals.length < w →
      smooth_lowess lw log1p expm1 y_series w it
        = Except.error PyErr.windowOutOfBounds) ∧
    (∀ y_series w it, (∃ o ∈ y_series.vals, o = none ∨ o = some 0) →
      ∃ e, smooth_lowess lw log1p expm1 y_series w it = Except.error e) ∧
    (∀ y_series it, 3 ≤ y_series.vals.length →
      (∀ o ∈ y_series.vals, o ≠ none ∧ o ≠ some 0) →
      ∃ out, smooth_lowess lw log1p expm1 y_series y_series.vals.length it
        = Except.ok out) := by
  refine ⟨?_, ?_, ?_, ?_, ?_⟩
  · intro y it
    unfold smooth_lowess
    rw [if_pos (by omega)]
  · intro y w it hw
    unfold smooth_lowess
    rw [if_pos (by omega)]
  · intro y w it hw
    unfold smooth_lowess
    rw [if_pos (by omega)]
  · intro y w it hbad
    unfold smooth_lowess
    by_cases hcond : w < 3 ∨ y.vals.length < w
    · exact ⟨PyErr.windowOutOfBounds, by rw [if_pos hcond]⟩
    · refine ⟨PyErr.nanOrZero, ?_⟩
      rw [if_neg hcond]
      obtain ⟨o, ho, hval⟩ := hbad
      have hany : y.vals.any (fun o => decide (o = none ∨ o = some 0)) = true := by
        rw [List.any_eq_true]
        exact ⟨o, ho, by simpa using hval⟩
      rw [hany]
      simp
  · intro y it hlen hclean
    exact ⟨_, smooth_lowess_ok_of_valid lw log1p expm1 y y.vals.length it
      hlen (Nat.le_refl _) hclean⟩

/- Missing-data pipeline (data_preprocessing.py). -/

/-- Zero-as-missing normalization of one entry: a stored zero becomes NaN,
as the assignment y_nan[y_nan == 0] = np.nan does. -/
def zeroToNan (o : Option ℚ) : Option ℚ := if o = some 0 then none else o

/-- Boolean filtering keeping only non-NaN nonzero entries with their
labels, as the mask (y != 0) & y.notnull() does. -/
def dropNanZero (s : PSeries) : CSeries :=
  (s.idx.zip s.vals).filterMap (fun p =>
    match p.2 with
    | none => none
    | some v => if v = 0 then none else some (p.1, v))

/-- Label lookup in a clean labelled series: the value at the first entry
carrying the label, if any — pandas index alignment for a unique index. -/
def lookupC (s : CSeries) (l : ℤ) : Option ℚ :=
  (s.find? (fun p => decide (p.1 = l))).map Prod.snd

/-- Label lookup in a series with optional values: none both when the
label is absent and when the stored value there is NaN. -/
def lookupP (s : PSeries) (l : ℤ) : Option ℚ :=
  match (s.idx.zip s.vals).find? (fun p => decide (p.1 = l)) with
  | some p => p.2
  | none => none

/-- Value column reconstructed by interpolate_stock_prices before its final
smoothing pass: zeros become NaN; the NaN-free sub-series is (optionally)
log1p-transformed and made stationary with at most two differences; NaN
slots take the aligned stationary value when their label survived, the
estimated mean otherwise (Series.where against the stationary series,
then the fill with mu); differencing is reversed by iterated cumsum; the
log transform is reversed by expm1. -/
def interp_filled (adf : List ℚ → Bool) (mle : List ℚ → ℚ × ℚ)
    (log1p expm1 : ℚ → ℚ) (y_series : PSeries) (log_transform : Bool) :
    List ℚ :=
  let no_nan_y : CSeries :=
    if log_transform then (dropNanZero y_series).map (fun p => (p.1, log1p p.2))
    else dropNanZero y_series
  let ms := make_stationary adf no_nan_y 2
  let mu := (estimate_normal_params mle (ms.1.map (fun p => some p.2))).1
  let y2 : List (Option ℚ) := List.zipWith (fun l o =>
    match o with
    | some v => some v
    | none => lookupC ms.1 l) y_series.idx (y_series.vals.map zeroToNan)
  let series_filled1 := cumsumN ms.2 (y2.map (fun o => o.getD mu))
  if log_transform then series_filled1.map expm1 else series_filled1

/-- Translation of interpolate_stock_prices: fatal error on negative values
when neither the log transform nor the negative allowance is on; otherwise
build the reconstructed value column, smooth it with window 4 and 3
iterations (the smoothing input carries the fresh default range index that
pd.Series gives the filled list), and return the zero-masked input with
every NaN slot replaced by the smoothed value aligned at its label, as
y_nan.fillna(filled_smooth) does. -/
def interpolate_stock_prices (adf : List ℚ → Bool) (mle : List ℚ → ℚ × ℚ)
    (lw : List ℚ → ℚ → ℕ → List ℚ) (log1p expm1 : ℚ → ℚ)
    (y_series : PSeries) (log_transform allow_negative_values : Bool) :
    Except PyErr PSeries :=
  if log_transform = false ∧ allow_negative_values = false
      ∧ (dropNanZero y_series).any (fun p => decide (p.2 < 0)) then
    .error PyErr.negativeValues
  else
    match smooth_lowess lw log1p expm1
        ⟨rangeIdx (interp_filled adf mle log1p expm1 y_series log_transform).length,
         (interp_filled adf mle log1p expm1 y_series log_transform).map some⟩
        4 3 with
    | .error e => .error e
    | .ok filled_smooth =>
      .ok ⟨y_series.idx, List.zipWith (fun l o =>
        match o with
        | some v => some v
        | none => lookupP filled_smooth l) y_series.idx
        (y_series.vals.map zeroToNan)⟩

theorem cumsumFrom_length (xs : List ℚ) :
    ∀ acc : ℚ, (cumsumFrom acc xs).length = xs.length := by
  induction xs with
  | nil => intro acc; rfl
  | cons x tl ih =>
    intro acc
    simp only [cumsumFrom, List.length_cons]
    rw [ih]

theorem cumsumN_length (n : ℕ) :
    ∀ xs : List ℚ, (cumsumN n xs).length = xs.length := by
  induction n with
  | zero => intro xs; rfl
  | succ m ih =>
    intro xs
    simp only [cumsumN]
    rw [ih, cumsum, cumsumFrom_length]

theorem rangeIdx_length (n : ℕ) : (rangeIdx n).length = n := by
  simp [rangeIdx]

theorem rangeIdx_get? (n i : ℕ) (h : i < n) :
    (rangeIdx n).get? i = some (Int.ofNat i) := by
  simp only [rangeIdx, List.get?_map]
  rw [List.get?_range h]
  rfl

theorem map_some_getD (xs : List ℚ) :
    (xs.map some).map (fun o => o.getD 0) = xs := by
  induction xs with
  | nil => rfl
  | cons a tl ih => simp [ih]

theorem interp_filled_length (adf : List ℚ → Bool) (mle : List ℚ → ℚ × ℚ)
    (log1p expm1 : ℚ → ℚ) (y_series : PSeries) (log_transform : Bool) :
    (interp_filled adf mle log1p expm1 y_series log_transform).length
      = min y_series.idx.length y_series.vals.length := by
  unfold interp_filled
  by_cases h : log_transform = true
  · simp [h, cumsumN_length]
  · simp [h, cumsumN_length]

theorem find_zip_range' (vs : List (Option ℚ)) :
    ∀ (a i : ℕ) (o : Option ℚ), vs.get? i = some o →
      (((List.range' a vs.length).map Int.ofNat).zip vs).find?
          (fun p => decide (p.1 = Int.ofNat (a + i)))
        = some (Int.ofNat (a + i), o) := by
  induction vs with
  | nil => intro a i o h; simp at h
  | cons v tl ih =>
    intro a i o h
    cases i with
    | zero =>
      have hv : v = o := by simpa using h
      subst hv
      simp [List.range'_succ, List.find?]
    | succ j =>
      have hj : tl.get? j = some o := by simpa using h
      have hne : decide ((Int.ofNat a : ℤ) = Int.ofNat (a + (j + 1))) = false := by
        simp only [decide_eq_false_iff_not, Int.ofNat.injEq]
        omega
      simp only [List.length_cons, List.range'_succ, List.map_cons, List.zip_cons_cons,
        List.find?]
      rw [hne]
      have := ih (a + 1) j o hj
      rw [show a + 1 + j = a + (j + 1) by omega] at this
      exact this

theorem lookupP_range (vs : List (Option ℚ)) (i : ℕ) (o : Option ℚ)
    (h : vs.get? i = some o) :
    lookupP ⟨rangeIdx vs.length, vs⟩ (Int.ofNat i) = o := by
  unfold lookupP rangeIdx
  rw [List.range_eq_range']
  have h2 := find_zip_range' vs 0 i o h
  rw [Nat.zero_add] at h2
  rw [h2]

theorem smooth_lowess_ok_shape (lw : List ℚ → ℚ → ℕ → List ℚ)
    (log1p expm1 : ℚ → ℚ) (y_series : PSeries) (w it : ℕ) (out : PSeries)
    (h : smooth_lowess lw log1p expm1 y_series w it = Except.ok out) :
    out = ⟨rangeIdx (((lw ((y_series.vals.map (fun o => o.getD 0)).map log1p)
          ((w : ℚ) / (y_series.vals.length : ℚ)) it).map expm1).length),
        ((lw ((y_series.vals.map (fun o => o.getD 0)).map log1p)
          ((w : ℚ) / (y_series.vals.length : ℚ)) it).map expm1).map some⟩ := by
  unfold smooth_lowess at h
  by_cases h1 : (w < 3 ∨ y_series.vals.length < w)
  · rw [if_pos h1] at h
    cases h
  · rw [if_neg h1] at h
    by_cases h2 : y_series.vals.any (fun o => decide (o = none ∨ o = some 0)) = true
    · rw [h2] at h
      simp at h
    · rw [Bool.not_eq_true] at h2
      rw [h2] at h
      simp only [Bool.false_eq_true, if_false] at h
      exact (Except.ok.injEq _ _ ▸ h).symm

/-- C1 amended: for every input series that carries the default integer
range index and contains at least one missing slot (NaN or zero),
whenever interpolate_stock_prices with log_transform on returns at all
(its internal smoothing pass may reject short or zero-containing
reconstructions), the returned series has the same length and index as the
input, every originally-observed nonzero non-NaN value is preserved
exactly, and every previously-missing position holds a non-NaN smoothed
value; the lowess kernel is assumed length preserving, as the statsmodels
kernel is for this call shape.  With a nondefault index the final
label-aligned fill can leave NaNs in place, which is what the
counterexample shows. -/
theorem C1_interpolate_gap_fill (adf : List ℚ → Bool) (mle : List ℚ → ℚ × ℚ)
    (lw : List ℚ → ℚ → ℕ → List ℚ) (log1p expm1 : ℚ → ℚ)
    (vals : List (Option ℚ)) (out : PSeries)
    (hlw : ∀ xs f k, (lw xs f k).length = xs.length)
    (hmiss : ∃ o ∈ vals, o = none ∨ o = some 0)
    (hok : interpolate_stock_prices adf mle lw log1p expm1
        ⟨rangeIdx vals.length, vals⟩ true false = Except.ok out) :
    out.idx = rangeIdx vals.length ∧
    out.vals.length = vals.length ∧
    (∀ i v, vals.get? i = some (some v) → v ≠ 0 →
      out.vals.get? i = some (some v)) ∧
    (∀ i, (vals.get? i = some none ∨ vals.get? i = some (some 0)) →
      ∃ q, out.vals.get? i = some (some q)) := by
  have hflen : (interp_filled adf mle log1p expm1
      ⟨rangeIdx vals.length, vals⟩ true).length = vals.length := by
    rw [interp_filled_length]
    simp [rangeIdx_length]
  unfold interpolate_stock_prices at hok
  rw [if_neg (by simp)] at hok
  set sf := interp_filled adf mle log1p expm1 ⟨rangeIdx vals.length, vals⟩ true
    with hsf
  cases hsm : smooth_lowess lw log1p expm1
      ⟨rangeIdx sf.length, (sf.map some)⟩ 4 3 with
  | error e =>
    rw [hsm] at hok
    cases hok
  | ok fs =>
    rw [hsm] at hok
    simp only [Except.ok.injEq] at hok
    have hfs := smooth_lowess_ok_shape lw log1p expm1
      ⟨rangeIdx sf.length, (sf.map some)⟩ 4 3 fs hsm
    obtain ⟨bg, hbg⟩ : ∃ bg : List ℚ, fs = ⟨rangeIdx bg.length, bg.map some⟩ :=
      ⟨_, hfs⟩
    have hfs_vals_len : fs.vals.length = vals.length := by
      rw [hfs]
      simp only [List.length_map, hlw]
      exact hflen
    have hbg_len : bg.length = vals.length := by
      rw [hbg] at hfs_vals_len
      simpa using hfs_vals_len
    subst hok
    refine ⟨rfl, ?_, ?_, ?_⟩
    · show (List.zipWith _ (rangeIdx vals.length) (vals.map zeroToNan)).length
        = vals.length
      rw [List.length_zipWith, List.length_map, rangeIdx_length]
      omega
    · intro i v hv hv0
      have hi : i < vals.length := by
        by_contra hlt
        rw [List.get?_eq_none.mpr (by omega)] at hv
        cases hv
      show (List.zipWith _ (rangeIdx vals.length) (vals.map zeroToNan)).get? i
        = some (some v)
      simp only [List.get?_zipWith', rangeIdx_get? vals.length i hi,
        List.get?_map, hv]
      simp [zeroToNan, hv0]
    · intro i hcase
      have hi : i < vals.length := by
        by_contra hlt
        rcases hcase with hv | hv <;> rw [List.get?_eq_none.mpr (by omega)] at hv
          <;> cases hv
      have hz : (vals.map zeroToNan).get? i = some none := by
        rcases hcase with hv | hv <;> rw [List.get?_map, hv] <;> rfl
      have hi4 : i < bg.length := by omega
      have hmap : (bg.map some).get? i = some (some (bg.get ⟨i, hi4⟩)) := by
        rw [List.get?_map, List.get?_eq_get hi4]
        rfl
      have hlp := lookupP_range (bg.map some) i (some (bg.get ⟨i, hi4⟩)) hmap
      rw [List.length_map] at hlp
      refine ⟨bg.get ⟨i, hi4⟩, ?_⟩
      show (List.zipWith _ (rangeIdx vals.length) (vals.map zeroToNan)).get? i
        = some (some (bg.get ⟨i, hi4⟩))
      simp only [List.get?_zipWith', rangeIdx_get? vals.length i hi, hz]
      rw [hbg]
      simpa using hlp

/-- C1 counterexample input: a four-point series with the nondefault index
100..103 and a NaN at position 1. -/
def shiftedSeries : PSeries := ⟨[100, 101, 102, 103], [some 1, none, some 2, some 3]⟩

/-- C1 counterexample: on a series with the nondefault index 100..103 and a
NaN at position 1, the pipeline returns the series unchanged, with the NaN
still in place, because the final fill aligns the smoothed values on their
fresh range index 0..3 and finds no matching label.  The stand-in kernels
only shortcut the numeric fits; the label mismatch in the final alignment is
the same for any kernels. -/
theorem C1_counterexample :
    interpolate_stock_prices (fun _ => true) (fun _ => (1, 1)) idLowess
        idKernelQ idKernelQ shiftedSeries true false
      = Except.ok ⟨[100, 101, 102, 103], [some 1, none, some 2, some 3]⟩ ∧
    shiftedSeries.vals.get? 1 = some none := ⟨rfl, rfl⟩

/-- C1 witness input: the concrete series of the claim scenario. -/
def demoVals : List (Option ℚ) :=
  [some 100, none, some 102, some 0, some 0, some 103, none, some 105,
   some 0, some 106, none, some 108, some 109]

/-- C1 witness output computed by the pipeline on the claim scenario with
the stand-in kernels. -/
def demoOut : PSeries :=
  ⟨rangeIdx 13,
   [some 100, some 1, some 102, some 1, some 1, some 103, some 1, some 105,
    some 1, some 106, some 1, some 108, some 109]⟩

/-- C1 witness: on the default-indexed 13-point series of the claim the
pipeline returns a 13-point series with index preserved, the observed value
100 preserved at position 0, and a non-NaN value at the previously-missing
position 1. -/
theorem C1_witness :
    demoOut.idx = rangeIdx demoVals.length ∧
    demoOut.vals.length = demoVals.length ∧
    demoOut.vals.get? 0 = some (some 100) ∧
    (∃ q, demoOut.vals.get? 1 = some (some q)) := by
  have h := C1_interpolate_gap_fill (fun _ => true) (fun _ => (1, 1)) idLowess
    idKernelQ idKernelQ demoVals demoOut (fun _ _ _ => rfl)
    ⟨none, by decide, Or.inl rfl⟩ rfl
  exact ⟨h.1, h.2.1, h.2.2.1 0 100 rfl (by norm_num), h.2.2.2 1 (Or.inl rfl)⟩

/-- C9 counterexample: the NaN/zero free series [1, 2] with window 2, which
equals its length, is rejected with the window error, contradicting the
claim that a window equal to the series length is always accepted. -/
theorem C9_counterexample :
    smooth_lowess idLowess idKernelQ idKernelQ ⟨[0, 1], [some 1, some 2]⟩ 2 1
      = Except.error PyErr.windowOutOfBounds ∧
    (∀ o ∈ ([some 1, some 2] : List (Option ℚ)), o ≠ none ∧ o ≠ some 0) := by
  exact ⟨rfl, by decide⟩

/-- C9 witness: a clean three-point series with window equal to its length
is accepted. -/
theorem C9_witness :
    ∃ out, smooth_lowess idLowess idKernelQ idKernelQ
        ⟨[0, 1, 2], [some 1, some 2, some 3]⟩ 3 5 = Except.ok out := by
  have h := C9_smooth_lowess_validation idLowess idKernelQ idKernelQ
  exact h.2.2.2.2 ⟨[0, 1, 2], [some 1, some 2, some 3]⟩ 5 (by decide) (by decide)

end Condor
